import Mathlib

/-!
Verification of the editable-text support of gaphor/diagram/textelement.py.

The embedding models the two classes of the module:

* `TextElement` mirrors the Python class of the same name: an attribute
  path, a mutable bounding rectangle, a style record, the rendered text,
  the print pattern and the display predicate.  The display predicate is a
  Python callable whose value during one pass we model as a `Bool` field.
* `EditableTextSupport` mirrors the container class.  Python objects are
  aliased between the `_texts` list and the `_text_groups` buckets, so the
  embedding keeps a heap (`Store`, a function from object ids to
  `TextElement`) and both the list and the buckets hold ids.

External capabilities (the gaphas helpers `text_extents` and the host's
`text_align` method, and the geometry function `distance_rectangle_point`)
are parameters: `RenderContext` carries the measurement and alignment
functions, and hit testing takes the distance function as an argument.
Coordinates are rationals.
-/

namespace GaphorText

structure Rectangle where
  x0 : ℚ
  y0 : ℚ
  width : ℚ
  height : ℚ
  deriving DecidableEq, Repr

inductive HAlign
  | left
  | center
  | right
  deriving DecidableEq, Repr

inductive VAlign
  | top
  | middle
  | bottom
  deriving DecidableEq, Repr

/-- Modelled from the spec: the alignment enum constants live in
gaphor.diagram.style, which is not under src; the spec only names the
values center and top used as defaults. -/
def ALIGN_CENTER : HAlign := HAlign.center

/-- Modelled from the spec: see ALIGN_CENTER. -/
def ALIGN_TOP : VAlign := VAlign.top

/-- Style record of a text element: the three keys the module reads
(text-align, text-padding, text-outside). -/
structure Style where
  text_align : HAlign × VAlign
  text_padding : ℚ × ℚ × ℚ × ℚ
  text_outside : Bool
  deriving DecidableEq, Repr

/-- The optional style dictionary passed to add_text and TextElement:
the three override keys plus the text-align-group key. -/
structure StyleArgs where
  text_align_group : Option String
  text_align : Option (HAlign × VAlign)
  text_padding : Option (ℚ × ℚ × ℚ × ℚ)
  text_outside : Option Bool
  deriving DecidableEq, Repr

/-- Python dict truthiness: an empty dict is falsy. -/
def StyleArgs.isEmpty (sd : StyleArgs) : Bool :=
  sd.text_align_group.isNone && sd.text_align.isNone &&
    sd.text_padding.isNone && sd.text_outside.isNone

/-- Modelled from the spec: Style.update of gaphor.diagram.style is not
under src; the spec says the defaults are overridden field-by-field by any
supplied style options. -/
def styleUpdate (st : Style) (sd : StyleArgs) : Style :=
  ⟨sd.text_align.getD st.text_align,
   sd.text_padding.getD st.text_padding,
   sd.text_outside.getD st.text_outside⟩

def defaultStyle : Style := ⟨(ALIGN_CENTER, ALIGN_TOP), (2, 2, 2, 2), false⟩

/-- Values a text element can be set to; Python %-formatting renders them
with str. -/
inductive PyVal
  | int (n : Int)
  | str (s : String)
  deriving DecidableEq, Repr

def pyStr : PyVal → String
  | PyVal.int n => toString n
  | PyVal.str s => s

inductive FormatError
  | notEnoughArguments
  | notAllConverted
  deriving DecidableEq, Repr

/-- Python percent-formatting on the fragment of patterns the module uses:
a percent-s placeholder consumes one argument, a doubled percent is a
literal, too few or left-over arguments raise. -/
def formatChars : List Char → List PyVal → Except FormatError (List Char)
  | [], [] => Except.ok []
  | [], _ :: _ => Except.error FormatError.notAllConverted
  | '%' :: 's' :: rest, a :: args => do
      let r ← formatChars rest args
      Except.ok ((pyStr a).data ++ r)
  | '%' :: 's' :: _, [] => Except.error FormatError.notEnoughArguments
  | '%' :: '%' :: rest, args => do
      let r ← formatChars rest args
      Except.ok ('%' :: r)
  | c :: rest, args => do
      let r ← formatChars rest args
      Except.ok (c :: r)

/-- The Python expression pattern % value for a single (non-tuple) value. -/
def pyFormat (pattern : String) (v : PyVal) : Except FormatError String :=
  (formatChars pattern.data [v]).map String.mk

structure TextElement where
  attr : String
  bounds : Rectangle
  style : Style
  text : String
  pattern : String
  display : Bool
  deriving DecidableEq, Repr

/-- TextElement.__init__: bounds Rectangle(0, 0, width=10, height=0), the
default style possibly updated by the style argument (Python: a None or
empty dict is falsy and applies no override), text the empty string, the
pattern argument if truthy else the percent-s identity pattern, and the
display predicate overridden only when a when argument is given. -/
def mkTextElement (attr : String) (style : Option StyleArgs)
    (pattern : Option String) (when_ : Option Bool) : TextElement :=
  let st :=
    match style with
    | none => defaultStyle
    | some sd => if sd.isEmpty then defaultStyle else styleUpdate defaultStyle sd
  let pat :=
    match pattern with
    | none => "%s"
    | some p => if p.isEmpty then "%s" else p
  ⟨attr, ⟨0, 0, 10, 0⟩, st, "", pat, when_.getD true⟩

/-- TextElement._set_text: evaluate pattern % value, then store it; a
formatting error propagates before the assignment, so the element is
unchanged on failure. -/
def set_text (e : TextElement) (v : PyVal) : Except FormatError TextElement :=
  match pyFormat e.pattern v with
  | Except.ok s => Except.ok { e with text := s }
  | Except.error err => Except.error err

/-- The object heap: text elements addressed by id. -/
abbrev Store := Nat → TextElement

def setB (st : Store) (i : Nat) (r : Rectangle) : Store :=
  fun j => if j = i then { st i with bounds := r } else st j

/-- EditableTextSupport state: _texts holds element ids in insertion
order, _text_groups is the insertion-ordered dict from group name (none
is the ungrouped bucket) to lists of element ids, and the heap maps ids
to the elements themselves. -/
structure EditableTextSupport where
  texts : List Nat
  groups : List (Option String × List Nat)
  store : Store
  nextId : Nat

/-- EditableTextSupport.__init__: empty _texts, _text_groups with just the
None bucket. -/
def initETS : EditableTextSupport :=
  ⟨[], [(none, [])], fun _ => mkTextElement "" none none none, 0⟩

def groupsLookup (gs : List (Option String × List Nat)) (k : Option String) :
    Option (List Nat) :=
  match gs with
  | [] => none
  | (k2, l) :: rest => if k2 = k then some l else groupsLookup rest k

def groupsAppend (gs : List (Option String × List Nat)) (k : Option String)
    (i : Nat) : List (Option String × List Nat) :=
  match gs with
  | [] => []
  | (k2, l) :: rest =>
      if k2 = k then (k2, l ++ [i]) :: rest else (k2, l) :: groupsAppend rest k i

inductive PyError
  | attributeError
  deriving DecidableEq, Repr

/-- EditableTextSupport.add_text: create the element, append it to _texts,
then read style.get(text-align-group) -- when style is None this raises
AttributeError (None has no get), after the element was already appended;
otherwise the bucket is created if absent and the element appended to it. -/
def add_text (s : EditableTextSupport) (attr : String) (style : Option StyleArgs)
    (pattern : Option String) (when_ : Option Bool) :
    EditableTextSupport × Except PyError Nat :=
  let txt := mkTextElement attr style pattern when_
  let idx := s.nextId
  let s1 : EditableTextSupport :=
    ⟨s.texts ++ [idx], s.groups, fun j => if j = idx then txt else s.store j, idx + 1⟩
  match style with
  | none => (s1, Except.error PyError.attributeError)
  | some sd =>
      let gname := sd.text_align_group
      let s2 : EditableTextSupport :=
        if (groupsLookup s1.groups gname).isSome then s1
        else ⟨s1.texts, s1.groups ++ [(gname, [])], s1.store, s1.nextId⟩
      let s3 : EditableTextSupport :=
        ⟨s2.texts, groupsAppend s2.groups gname idx, s2.store, s2.nextId⟩
      (s3, Except.ok idx)

/-- The render context: the gaphas text_extents measurement (multiline)
and the host's text_align method, both external capabilities. -/
structure RenderContext where
  measure : String → ℚ × ℚ
  text_align : ℚ × ℚ → HAlign × VAlign → ℚ × ℚ × ℚ × ℚ → Bool → ℚ × ℚ

/-- The displayable members of a group, in group order. -/
def displayable (st : Store) (group : List Nat) : List Nat :=
  group.filter fun i => (st i).display

/-- Python max over a generator; the module only applies it to nonempty
lists. -/
def pymax : List ℚ → ℚ
  | [] => 0
  | x :: xs => xs.foldl max x

/-- Python sum over a generator. -/
def pysum (l : List ℚ) : ℚ := l.sum

/-- Python min over a nonempty list. -/
def pyminL : List ℚ → ℚ
  | [] => 0
  | x :: xs => xs.foldl min x

def pymin (x : ℚ) (l : List ℚ) : ℚ := l.foldl min x

/-- The stacking loop of _align_text_group: each displayable text is
centered horizontally in the clamped box width, placed at the running
vertical offset, sized to its own measured extents, and the offset grows
by its height plus 3. -/
def stackLoop (x y width : ℚ) : Store → ℚ → List (Nat × (ℚ × ℚ)) → Store
  | st, _, [] => st
  | st, dy, (i, d) :: rest =>
      stackLoop x y width
        (setB st i ⟨x + (width - d.1) / 2, y + dy, d.1, d.2⟩)
        (dy + d.2 + 3) rest

/-- EditableTextSupport._align_text_group: collect the displayable texts,
return unchanged if none; measure them, take the maximum width and summed
height, clamp that box elementwise to the (15, 10) floor, anchor with the
first displayable text's style -- note the source passes the unclamped
extents tuple to text_align, the clamped width only feeds the centering --
and stack. -/
def align_text_group (ctx : RenderContext) (st : Store) (group : List Nat) :
    Store :=
  let texts := displayable st group
  if texts.isEmpty then st
  else
    let dimensions := texts.map fun i => ctx.measure (st i).text
    let width := pymax (dimensions.map Prod.fst)
    let height := pysum (dimensions.map Prod.snd)
    let extents := (width, height)
    let width2 := max width 15
    let _height2 := max height 10
    let style := (st (texts.headD 0)).style
    let xy := ctx.text_align extents style.text_align style.text_padding
      style.text_outside
    stackLoop xy.1 xy.2 width2 st 0 (texts.zip dimensions)

/-- The ungrouped branch of update for a single element: skip when not
displayed, otherwise measure, clamp the extents to the (15, 10) floor,
anchor with the element's own style and store the clamped extents. -/
def ungroupedStep (ctx : RenderContext) (st : Store) (i : Nat) : Store :=
  let txt := st i
  if txt.display then
    let extents := ctx.measure txt.text
    let width := max extents.1 15
    let height := max extents.2 10
    let xy := ctx.text_align (width, height) txt.style.text_align
      txt.style.text_padding txt.style.text_outside
    setB st i ⟨xy.1, xy.2, width, height⟩
  else st

/-- The store transformation of EditableTextSupport.update: the grouped
pass over every named group in dict order, then the ungrouped pass over
the None bucket. -/
def updateStore (ctx : RenderContext) (groups : List (Option String × List Nat))
    (st : Store) : Store :=
  let st1 := groups.foldl
    (fun st gp =>
      match gp.1 with
      | none => st
      | some _ => align_text_group ctx st gp.2)
    st
  ((groupsLookup groups none).getD []).foldl (ungroupedStep ctx) st1

/-- EditableTextSupport.update. -/
def update (ctx : RenderContext) (s : EditableTextSupport) :
    EditableTextSupport :=
  ⟨s.texts, s.groups, updateStore ctx s.groups s.store, s.nextId⟩

/-- The distances appended by EditableTextSupport.point: one per
displayed element of _texts, in order, computed by the external
distance_rectangle_point capability d. -/
def visibleDistances (d : Rectangle → ℚ × ℚ → ℚ) (s : EditableTextSupport)
    (x y : ℚ) : List ℚ :=
  (s.texts.filter fun i => (s.store i).display).map
    fun i => d (s.store i).bounds (x, y)

/-- EditableTextSupport.point: min over the sentinel 10000.0 followed by
the displayed elements' distances; the pair result records that the state
is returned untouched. -/
def point (d : Rectangle → ℚ × ℚ → ℚ) (s : EditableTextSupport) (x y : ℚ) :
    EditableTextSupport × ℚ :=
  (s, pymin 10000 (visibleDistances d s x y))

inductive DrawCmd
  | textCmd (x y : ℚ) (s : String)
  | rectCmd (lw x y w h : ℚ)
  deriving DecidableEq, Repr

/-- EditableTextSupport.draw: for each displayed element, paint the text
at the bounds origin when the item has a subject, and stroke the bounds
with line width one half when hovered, focused or draw_all; the state is
returned untouched. -/
def draw (hasSubject hovered focused drawAll : Bool)
    (s : EditableTextSupport) : EditableTextSupport × List DrawCmd :=
  (s, s.texts.foldl
    (fun acc i =>
      let txt := s.store i
      if txt.display then
        let painted :=
          if hasSubject then
            [DrawCmd.textCmd txt.bounds.x0 txt.bounds.y0 txt.text]
          else []
        let boxed :=
          if hovered || focused || drawAll then
            [DrawCmd.rectCmd (1 / 2) txt.bounds.x0 txt.bounds.y0
              txt.bounds.width txt.bounds.height]
          else []
        acc ++ painted ++ boxed
      else acc)
    [])

/-- A concrete instance of the external rectangle distance: the sum of the
per-axis gaps to the rectangle, which agrees with the Euclidean
rectangle-to-point distance whenever the point is displaced along a single
axis, as in the configurations evaluated below. -/
def axisGap (lo len p : ℚ) : ℚ :=
  if p < lo then lo - p else if p > lo + len then p - (lo + len) else 0

def distExample (r : Rectangle) (p : ℚ × ℚ) : ℚ :=
  axisGap r.x0 r.width p.1 + axisGap r.y0 r.height p.2

/-- A text element with every field immutable under layout kept and the
bounds zeroed; two elements agree on it exactly when they differ at most
in their bounds. -/
def eraseBounds (e : TextElement) : TextElement :=
  { e with bounds := ⟨0, 0, 0, 0⟩ }

/-- Two stores hold the same objects up to bounds. -/
def immutEq (st st2 : Store) : Prop :=
  ∀ j, eraseBounds (st j) = eraseBounds (st2 j)

/-- A store transformation writes only bounds, and the values it writes
are determined by the bounds-erased view: on stores that agree up to
bounds it produces, at every id, either the same object or the untouched
input objects. -/
def WriteDet (S : Store → Store) : Prop :=
  ∀ st st2, immutEq st st2 →
    ∀ j, S st j = S st2 j ∨ (S st j = st j ∧ S st2 j = st2 j)

/-- The anchor position a group's box receives from text_align: the
unclamped extents (maximum width, summed height) with the first
displayable element's style. -/
def groupAnchor (ctx : RenderContext) (st : Store) (vis : List Nat) : ℚ × ℚ :=
  let dims := vis.map fun j => ctx.measure (st j).text
  let sty := (st (vis.headD 0)).style
  ctx.text_align (pymax (dims.map Prod.fst), pysum (dims.map Prod.snd))
    sty.text_align sty.text_padding sty.text_outside

/-- The clamped box width a group's stacking uses for centering. -/
def groupBoxWidth (ctx : RenderContext) (st : Store) (vis : List Nat) : ℚ :=
  max (pymax ((vis.map fun j => ctx.measure (st j).text).map Prod.fst)) 15

/-- A render context for concrete evaluations: every string measures to
(10, 8) and the alignment function returns the extents it was given, so
its result records which box size the module passed to it. -/
def ctxProbe : RenderContext := ⟨fun _ => (10, 8), fun e _ _ _ => e⟩

/-- A render context for the stacking evaluations: constant measurement
(10, 8) and constant anchor (100, 200). -/
def ctxAnchor : RenderContext := ⟨fun _ => (10, 8), fun _ _ _ _ => (100, 200)⟩

/-- An element as created with all defaults: displayed, default bounds. -/
def defaultElem : TextElement := mkTextElement "name" none none none

/-- An element whose when predicate returns false: never displayed. -/
def hiddenElem : TextElement := mkTextElement "name" none none (some false)

/-- One displayed element with id 0, alone in named group g. -/
def sOneGroup : EditableTextSupport :=
  ⟨[0], [(none, []), (some "g", [0])], fun _ => defaultElem, 1⟩

/-- Three displayed elements 0, 1, 2 in named group g, in that order. -/
def sThreeGroup : EditableTextSupport :=
  ⟨[0, 1, 2], [(none, []), (some "g", [0, 1, 2])], fun _ => defaultElem, 3⟩

/-- One displayed ungrouped element with id 0, for hit testing. -/
def sOneText : EditableTextSupport :=
  ⟨[0], [(none, [0])], fun _ => defaultElem, 1⟩

/-- One hidden ungrouped element with id 0. -/
def sHidden : EditableTextSupport :=
  ⟨[0], [(none, [0])], fun _ => hiddenElem, 1⟩

theorem eraseBounds_parts (e e2 : TextElement)
    (h : eraseBounds e = eraseBounds e2) :
    e.display = e2.display ∧ e.text = e2.text ∧ e.style = e2.style ∧
      ∀ r, ({ e with bounds := r } : TextElement) = { e2 with bounds := r } := by
  cases e
  cases e2
  simp only [eraseBounds, TextElement.mk.injEq] at h
  obtain ⟨h1, -, h3, h4, h5, h6⟩ := h
  subst h1; subst h3; subst h4; subst h5; subst h6
  simp

theorem setB_eq (st : Store) (i : Nat) (r : Rectangle) :
    setB st i r i = { st i with bounds := r } := by
  simp [setB]

theorem setB_ne (st : Store) (i : Nat) (r : Rectangle) (j : Nat) (h : j ≠ i) :
    setB st i r j = st j := by
  simp [setB, h]

theorem eraseBounds_setB (st : Store) (i : Nat) (r : Rectangle) (j : Nat) :
    eraseBounds (setB st i r j) = eraseBounds (st j) := by
  simp only [setB]
  split
  · rename_i h
    subst h
    rfl
  · rfl

theorem stackLoop_immut (x y w : ℚ) (l : List (Nat × (ℚ × ℚ))) :
    ∀ (st : Store) (dy : ℚ) (j : Nat),
      eraseBounds (stackLoop x y w st dy l j) = eraseBounds (st j) := by
  induction l with
  | nil => intro st dy j; rfl
  | cons p rest ih =>
      intro st dy j
      obtain ⟨i, d⟩ := p
      simp only [stackLoop]
      rw [ih, eraseBounds_setB]

theorem stackLoop_notmem (x y w : ℚ) (l : List (Nat × (ℚ × ℚ))) :
    ∀ (st : Store) (dy : ℚ) (i : Nat), (∀ p ∈ l, p.1 ≠ i) →
      stackLoop x y w st dy l i = st i := by
  induction l with
  | nil => intro st dy i _; rfl
  | cons p rest ih =>
      intro st dy i h
      obtain ⟨a, d⟩ := p
      simp only [stackLoop]
      rw [ih _ _ _ fun q hq => h q (List.mem_cons_of_mem _ hq),
        setB_ne _ _ _ _ (Ne.symm (h (a, d) (List.mem_cons_self _ _)))]

theorem stackLoop_mem (x y w : ℚ) (pre : List (Nat × (ℚ × ℚ))) :
    ∀ (st : Store) (dy : ℚ) (i : Nat) (d : ℚ × ℚ)
      (post : List (Nat × (ℚ × ℚ))),
      (∀ p ∈ pre, p.1 ≠ i) → (∀ p ∈ post, p.1 ≠ i) →
      stackLoop x y w st dy (pre ++ (i, d) :: post) i =
        { st i with bounds :=
          ⟨x + (w - d.1) / 2,
           y + dy + pysum (pre.map fun p => p.2.2 + 3), d.1, d.2⟩ } := by
  induction pre with
  | nil =>
      intro st dy i d post _ hpost
      simp only [List.nil_append, stackLoop]
      rw [stackLoop_notmem _ _ _ _ _ _ _ hpost, setB_eq]
      simp [pysum]
  | cons q pre ih =>
      intro st dy i d post hpre hpost
      obtain ⟨a, da⟩ := q
      simp only [List.cons_append, stackLoop, List.append_eq]
      rw [ih _ _ _ _ _ (fun p hp => hpre p (List.mem_cons_of_mem _ hp)) hpost,
        setB_ne _ _ _ _ (Ne.symm (hpre (a, da) (List.mem_cons_self _ _)))]
      simp only [TextElement.mk.injEq, Rectangle.mk.injEq, pysum,
        List.map_cons, List.sum_cons, true_and, and_true]
      ring

theorem ungroupedStep_preserves (ctx : RenderContext) (st : Store) (a i : Nat)
    (h : i ≠ a) : ungroupedStep ctx st a i = st i := by
  simp only [ungroupedStep]
  split
  · rw [setB_ne _ _ _ _ h]
  · rfl

theorem foldl_ungrouped_notmem (ctx : RenderContext) (ns : List Nat) :
    ∀ (st : Store) (i : Nat), i ∉ ns →
      (ns.foldl (ungroupedStep ctx) st) i = st i := by
  induction ns with
  | nil => intro st i _; rfl
  | cons a rest ih =>
      intro st i h
      simp only [List.foldl_cons]
      rw [ih _ _ fun hm => h (List.mem_cons_of_mem _ hm),
        ungroupedStep_preserves _ _ _ _ fun hc => h (by simp [hc])]

theorem zip_map_self {α β : Type} (l : List α) (f : α → β) :
    l.zip (l.map f) = l.map fun a => (a, f a) := by
  induction l with
  | nil => rfl
  | cons a l ih => simp [ih]

theorem align_text_group_member (ctx : RenderContext) (st : Store)
    (gl pre post : List Nat) (i : Nat)
    (h2 : displayable st gl = pre ++ i :: post)
    (h3 : ∀ j ∈ pre, j ≠ i) (h4 : ∀ j ∈ post, j ≠ i) :
    align_text_group ctx st gl i =
      { st i with bounds :=
        ⟨(groupAnchor ctx st (pre ++ i :: post)).1 +
           (groupBoxWidth ctx st (pre ++ i :: post) -
             (ctx.measure (st i).text).1) / 2,
         (groupAnchor ctx st (pre ++ i :: post)).2 +
           pysum (pre.map fun j => (ctx.measure (st j).text).2 + 3),
         (ctx.measure (st i).text).1,
         (ctx.measure (st i).text).2⟩ } := by
  have hne : (pre ++ i :: post).isEmpty = false := by cases pre <;> rfl
  have hzip : (pre ++ i :: post).zip
      (List.map (fun j => ctx.measure (st j).text) (pre ++ i :: post)) =
      (pre.map fun a => (a, ctx.measure (st a).text)) ++
        (i, ctx.measure (st i).text) ::
          (post.map fun a => (a, ctx.measure (st a).text)) := by
    rw [zip_map_self]
    simp
  simp only [align_text_group, h2, hne, Bool.false_eq_true, if_false]
  rw [hzip]
  rw [stackLoop_mem _ _ _ _ _ _ _ _ _
    (fun p hp => by
      obtain ⟨a, ha, rfl⟩ := List.mem_map.mp hp
      exact h3 a ha)
    (fun p hp => by
      obtain ⟨a, ha, rfl⟩ := List.mem_map.mp hp
      exact h4 a ha)]
  simp only [TextElement.mk.injEq, Rectangle.mk.injEq, groupAnchor,
    groupBoxWidth, List.map_map, pysum, true_and, and_true,
    Function.comp_def]
  ring

theorem setB_immutEq (st st2 : Store) (h : immutEq st st2) (i : Nat)
    (r : Rectangle) : immutEq (setB st i r) (setB st2 i r) := fun k => by
  rw [eraseBounds_setB, eraseBounds_setB]
  exact h k

theorem stackLoop_writeDet (x y w : ℚ) (l : List (Nat × (ℚ × ℚ))) :
    ∀ (st st2 : Store) (dy : ℚ), immutEq st st2 →
      ∀ j, stackLoop x y w st dy l j = stackLoop x y w st2 dy l j ∨
        (stackLoop x y w st dy l j = st j ∧
          stackLoop x y w st2 dy l j = st2 j) := by
  induction l with
  | nil => intro st st2 dy _ j; exact Or.inr ⟨rfl, rfl⟩
  | cons p rest ih =>
      intro st st2 dy h j
      obtain ⟨i, d⟩ := p
      simp only [stackLoop]
      rcases ih _ _ _ (setB_immutEq _ _ h i _) j with hL | ⟨ha, hb⟩
      · exact Or.inl hL
      · by_cases hji : j = i
        · subst hji
          refine Or.inl ?_
          rw [ha, hb, setB_eq, setB_eq]
          exact (eraseBounds_parts _ _ (h j)).2.2.2 _
        · exact Or.inr ⟨by rw [ha, setB_ne _ _ _ _ hji],
            by rw [hb, setB_ne _ _ _ _ hji]⟩

theorem displayable_immutEq (st st2 : Store) (h : immutEq st st2)
    (g : List Nat) : displayable st g = displayable st2 g :=
  List.filter_congr fun i _ => by rw [(eraseBounds_parts _ _ (h i)).1]

theorem measure_immutEq (ctx : RenderContext) (st st2 : Store)
    (h : immutEq st st2) (l : List Nat) :
    (l.map fun i => ctx.measure (st i).text) =
      l.map fun i => ctx.measure (st2 i).text :=
  List.map_congr_left fun i _ => by rw [(eraseBounds_parts _ _ (h i)).2.1]

theorem align_text_group_immut (ctx : RenderContext) (g : List Nat)
    (st : Store) (j : Nat) :
    eraseBounds (align_text_group ctx st g j) = eraseBounds (st j) := by
  simp only [align_text_group]
  by_cases hc : (displayable st g).isEmpty <;> simp [hc, stackLoop_immut]

theorem ungroupedStep_immut (ctx : RenderContext) (a : Nat) (st : Store)
    (j : Nat) : eraseBounds (ungroupedStep ctx st a j) = eraseBounds (st j) := by
  simp only [ungroupedStep]
  by_cases hc : (st a).display <;> simp [hc, eraseBounds_setB]

theorem align_text_group_writeDet (ctx : RenderContext) (g : List Nat) :
    WriteDet fun st => align_text_group ctx st g := by
  intro st st2 h j
  have hd : displayable st g = displayable st2 g := displayable_immutEq _ _ h g
  simp only [align_text_group]
  rw [hd, measure_immutEq ctx st st2 h,
    (eraseBounds_parts _ _ (h ((displayable st2 g).headD 0))).2.2.1]
  by_cases he : (displayable st2 g).isEmpty
  · right
    simp [he]
  · simp only [he, Bool.false_eq_true, if_false]
    exact stackLoop_writeDet _ _ _ _ st st2 0 h j

theorem ungroupedStep_writeDet (ctx : RenderContext) (a : Nat) :
    WriteDet fun st => ungroupedStep ctx st a := by
  intro st st2 h j
  obtain ⟨hdisp, htext, hsty, hset⟩ := eraseBounds_parts _ _ (h a)
  simp only [ungroupedStep]
  rw [hdisp, htext, hsty]
  by_cases hb : (st2 a).display
  · simp only [hb, if_true]
    by_cases hja : j = a
    · subst hja
      rw [setB_eq, setB_eq]
      exact Or.inl (hset _)
    · exact Or.inr ⟨setB_ne _ _ _ _ hja, setB_ne _ _ _ _ hja⟩
  · right
    simp [hb]

theorem foldl_immut {α : Type} (step : Store → α → Store)
    (hIP : ∀ a st j, eraseBounds (step st a j) = eraseBounds (st j))
    (l : List α) : ∀ (st : Store) (j : Nat),
      eraseBounds (l.foldl step st j) = eraseBounds (st j) := by
  induction l with
  | nil => intro st j; rfl
  | cons a rest ih =>
      intro st j
      simp only [List.foldl_cons]
      rw [ih, hIP]

theorem foldl_writeDet {α : Type} (step : Store → α → Store)
    (hIP : ∀ a st j, eraseBounds (step st a j) = eraseBounds (st j))
    (hWD : ∀ a, WriteDet fun st => step st a) (l : List α) :
    WriteDet fun st => l.foldl step st := by
  induction l with
  | nil => intro st st2 _ j; exact Or.inr ⟨rfl, rfl⟩
  | cons a rest ih =>
      intro st st2 h j
      simp only [List.foldl_cons]
      have h2 : immutEq (step st a) (step st2 a) := fun k => by
        rw [hIP, hIP]
        exact h k
      rcases ih (step st a) (step st2 a) h2 j with hL | ⟨ha, hb⟩
      · exact Or.inl hL
      · rcases hWD a st st2 h j with hL2 | ⟨hc, hd⟩
        · exact Or.inl (ha.trans (hL2.trans hb.symm))
        · exact Or.inr ⟨ha.trans hc, hb.trans hd⟩

theorem pass1_step_immut (ctx : RenderContext)
    (gp : Option String × List Nat) (st : Store) (j : Nat) :
    eraseBounds
        ((match gp.1 with
          | none => st
          | some _ => align_text_group ctx st gp.2) j) =
      eraseBounds (st j) := by
  rcases gp with ⟨k, gl⟩
  cases k
  · rfl
  · exact align_text_group_immut ctx gl st j

theorem pass1_step_writeDet (ctx : RenderContext)
    (gp : Option String × List Nat) :
    WriteDet fun st =>
      match gp.1 with
      | none => st
      | some _ => align_text_group ctx st gp.2 := by
  rcases gp with ⟨k, gl⟩
  cases k
  · intro st st2 _ j
    exact Or.inr ⟨rfl, rfl⟩
  · exact align_text_group_writeDet ctx gl

theorem updateStore_immut (ctx : RenderContext)
    (groups : List (Option String × List Nat)) (st : Store) (j : Nat) :
    eraseBounds (updateStore ctx groups st j) = eraseBounds (st j) := by
  simp only [updateStore]
  rw [foldl_immut (ungroupedStep ctx) (ungroupedStep_immut ctx),
    foldl_immut _ (pass1_step_immut ctx)]

theorem updateStore_writeDet (ctx : RenderContext)
    (groups : List (Option String × List Nat)) :
    WriteDet (updateStore ctx groups) := by
  intro st st2 h j
  simp only [updateStore]
  have h2 : immutEq
      (groups.foldl (fun st gp =>
        match gp.1 with
        | none => st
        | some _ => align_text_group ctx st gp.2) st)
      (groups.foldl (fun st gp =>
        match gp.1 with
        | none => st
        | some _ => align_text_group ctx st gp.2) st2) := fun k => by
    rw [foldl_immut _ (pass1_step_immut ctx), foldl_immut _ (pass1_step_immut ctx)]
    exact h k
  rcases foldl_writeDet (ungroupedStep ctx) (ungroupedStep_immut ctx)
      (ungroupedStep_writeDet ctx) ((groupsLookup groups none).getD []) _ _ h2 j
    with hL | ⟨ha, hb⟩
  · exact Or.inl hL
  · rcases foldl_writeDet _ (pass1_step_immut ctx) (pass1_step_writeDet ctx)
        groups st st2 h j with hL2 | ⟨hc, hd⟩
    · exact Or.inl (ha.trans (hL2.trans hb.symm))
    · exact Or.inr ⟨ha.trans hc, hb.trans hd⟩

theorem align_text_group_notmem (ctx : RenderContext) (gl : List Nat)
    (st : Store) (i : Nat) (h : i ∉ gl) :
    align_text_group ctx st gl i = st i := by
  simp only [align_text_group]
  by_cases he : (displayable st gl).isEmpty
  · simp [he]
  · simp only [he, Bool.false_eq_true, if_false]
    apply stackLoop_notmem
    intro p hp
    obtain ⟨a, d2⟩ := p
    intro hai
    have hai2 : a = i := hai
    have ha : a ∈ displayable st gl := (List.of_mem_zip hp).1
    have hgl : a ∈ gl := (List.mem_filter.mp ha).1
    exact h (hai2 ▸ hgl)

theorem foldl_pass1_notmem (ctx : RenderContext)
    (gs : List (Option String × List Nat)) :
    ∀ (st : Store) (i : Nat), (∀ gp ∈ gs, gp.1 ≠ none → i ∉ gp.2) →
      (gs.foldl (fun st gp =>
        match gp.1 with
        | none => st
        | some _ => align_text_group ctx st gp.2) st) i = st i := by
  induction gs with
  | nil => intro st i _; rfl
  | cons gp rest ih =>
      intro st i h
      simp only [List.foldl_cons]
      rw [ih _ _ fun q hq => h q (List.mem_cons_of_mem _ hq)]
      rcases gp with ⟨k, l⟩
      cases k with
      | none => rfl
      | some gname =>
          exact align_text_group_notmem ctx l st i
            (h (some gname, l) (List.mem_cons_self _ _) (by simp))

theorem groupAnchor_immutEq (ctx : RenderContext) (st st2 : Store)
    (h : immutEq st st2) (vis : List Nat) :
    groupAnchor ctx st vis = groupAnchor ctx st2 vis := by
  simp only [groupAnchor]
  rw [measure_immutEq ctx st st2 h,
    (eraseBounds_parts _ _ (h (vis.headD 0))).2.2.1]

theorem groupBoxWidth_immutEq (ctx : RenderContext) (st st2 : Store)
    (h : immutEq st st2) (vis : List Nat) :
    groupBoxWidth ctx st vis = groupBoxWidth ctx st2 vis := by
  simp only [groupBoxWidth]
  rw [measure_immutEq ctx st st2 h]

theorem update_group_member (ctx : RenderContext) (s : EditableTextSupport)
    (g : String) (gs1 gs2 : List (Option String × List Nat))
    (gl pre post : List Nat) (i : Nat)
    (h1 : s.groups = gs1 ++ (some g, gl) :: gs2)
    (h2 : displayable s.store gl = pre ++ i :: post)
    (h3 : ∀ j ∈ pre, j ≠ i) (h4 : ∀ j ∈ post, j ≠ i)
    (h5 : i ∉ (groupsLookup s.groups none).getD [])
    (h6 : ∀ gp ∈ gs1 ++ gs2, gp.1 ≠ none → i ∉ gp.2) :
    (update ctx s).store i =
      { s.store i with bounds :=
        ⟨(groupAnchor ctx s.store (pre ++ i :: post)).1 +
           (groupBoxWidth ctx s.store (pre ++ i :: post) -
             (ctx.measure (s.store i).text).1) / 2,
         (groupAnchor ctx s.store (pre ++ i :: post)).2 +
           pysum (pre.map fun j => (ctx.measure (s.store j).text).2 + 3),
         (ctx.measure (s.store i).text).1,
         (ctx.measure (s.store i).text).2⟩ } := by
  show updateStore ctx s.groups s.store i = _
  simp only [updateStore]
  rw [foldl_ungrouped_notmem ctx _ _ i h5]
  rw [h1, List.foldl_append]
  simp only [List.foldl_cons]
  rw [foldl_pass1_notmem ctx gs2 _ i
    (fun gp hgp => h6 gp (List.mem_append.mpr (Or.inr hgp)))]
  show align_text_group ctx
      (gs1.foldl (fun st gp =>
        match gp.1 with
        | none => st
        | some _ => align_text_group ctx st gp.2) s.store) gl i = _
  have himm : immutEq s.store (gs1.foldl (fun st gp =>
      match gp.1 with
      | none => st
      | some _ => align_text_group ctx st gp.2) s.store) := fun k =>
    (foldl_immut _ (pass1_step_immut ctx) gs1 s.store k).symm
  rw [align_text_group_member ctx _ gl pre post i
    (by rw [← displayable_immutEq _ _ himm gl]; exact h2) h3 h4]
  rw [foldl_pass1_notmem ctx gs1 s.store i
    (fun gp hgp => h6 gp (List.mem_append.mpr (Or.inl hgp)))]
  have hpre : (pre.map fun j =>
      (ctx.measure ((gs1.foldl (fun st gp =>
        match gp.1 with
        | none => st
        | some _ => align_text_group ctx st gp.2) s.store) j).text).2 + 3) =
      pre.map fun j => (ctx.measure (s.store j).text).2 + 3 :=
    List.map_congr_left fun j _ => by
      rw [← (eraseBounds_parts _ _ (himm j)).2.1]
  rw [hpre]
  rw [groupAnchor_immutEq ctx _ _ (fun k => (himm k).symm) (pre ++ i :: post),
    groupBoxWidth_immutEq ctx _ _ (fun k => (himm k).symm) (pre ++ i :: post)]

theorem pymin_le_init (l : List ℚ) : ∀ x, pymin x l ≤ x := by
  induction l with
  | nil => intro x; exact le_refl x
  | cons a l ih => intro x; exact le_trans (ih (min x a)) (min_le_left x a)

theorem pymin_le_mem (l : List ℚ) : ∀ x q, q ∈ l → pymin x l ≤ q := by
  induction l with
  | nil => intro x q h; cases h
  | cons a l ih =>
      intro x q h
      rcases List.mem_cons.mp h with rfl | h2
      · exact le_trans (pymin_le_init l (min x q)) (min_le_right x q)
      · exact ih _ _ h2

theorem pymin_min (l : List ℚ) : ∀ x y, pymin (min x y) l = min x (pymin y l) := by
  induction l with
  | nil => intro x y; rfl
  | cons a l ih =>
      intro x y
      show pymin (min (min x y) a) l = min x (pymin (min y a) l)
      rw [min_assoc]
      exact ih x (min y a)

theorem pymin_eq_minL (l : List ℚ) (x : ℚ) (h : l ≠ []) :
    pymin x l = min x (pyminL l) := by
  cases l with
  | nil => cases h rfl
  | cons a l => exact pymin_min l x a

theorem pyminL_le_mem (l : List ℚ) (q : ℚ) (h : q ∈ l) : pyminL l ≤ q := by
  cases l with
  | nil => cases h
  | cons a l =>
      rcases List.mem_cons.mp h with rfl | h2
      · exact pymin_le_init l q
      · exact pymin_le_mem l a q h2

theorem pymin_all_ge (l : List ℚ) : ∀ x, (∀ q ∈ l, x ≤ q) → pymin x l = x := by
  induction l with
  | nil => intro x _; rfl
  | cons a l ih =>
      intro x h
      show pymin (min x a) l = x
      rw [min_eq_left (h a (List.mem_cons_self _ _))]
      exact ih x fun q hq => h q (List.mem_cons_of_mem _ hq)

theorem align_text_group_nondisplay (ctx : RenderContext) (gl : List Nat)
    (st : Store) (i : Nat) (h : (st i).display = false) :
    align_text_group ctx st gl i = st i := by
  simp only [align_text_group]
  by_cases he : (displayable st gl).isEmpty
  · simp [he]
  · simp only [he, Bool.false_eq_true, if_false]
    apply stackLoop_notmem
    intro p hp
    obtain ⟨a, d2⟩ := p
    intro hai
    have hai2 : a = i := hai
    have ha : a ∈ displayable st gl := (List.of_mem_zip hp).1
    have hda := (List.mem_filter.mp ha).2
    rw [hai2, h] at hda
    cases hda

theorem ungroupedStep_nondisplay (ctx : RenderContext) (st : Store)
    (a i : Nat) (h : (st i).display = false) :
    ungroupedStep ctx st a i = st i := by
  by_cases hai : a = i
  · subst hai
    simp [ungroupedStep, h]
  · exact ungroupedStep_preserves ctx st a i (Ne.symm hai)

theorem foldl_nondisplay {α : Type} (step : Store → α → Store)
    (hstep : ∀ a st i, (st i).display = false → step st a i = st i)
    (l : List α) : ∀ (st : Store) (i : Nat), (st i).display = false →
      l.foldl step st i = st i := by
  induction l with
  | nil => intro st i _; rfl
  | cons a rest ih =>
      intro st i h
      have h1 := hstep a st i h
      rw [List.foldl_cons, ih (step st a) i (by rw [h1]; exact h), h1]

theorem update_nondisplay (ctx : RenderContext) (s : EditableTextSupport)
    (i : Nat) (h : (s.store i).display = false) :
    (update ctx s).store i = s.store i := by
  show updateStore ctx s.groups s.store i = s.store i
  simp only [updateStore]
  have hp1 : (s.groups.foldl (fun st gp =>
      match gp.1 with
      | none => st
      | some _ => align_text_group ctx st gp.2) s.store) i = s.store i := by
    apply foldl_nondisplay _ _ _ _ _ h
    intro gp st k hk
    rcases gp with ⟨key, gl⟩
    cases key
    · rfl
    · exact align_text_group_nondisplay ctx gl st k hk
  rw [foldl_nondisplay (ungroupedStep ctx)
    (fun a st k hk => ungroupedStep_nondisplay ctx st a k hk) _ _ _
    (by rw [hp1]; exact h), hp1]

theorem styleUpdate_empty (sd : StyleArgs) (h : sd.isEmpty = true) :
    styleUpdate defaultStyle sd = defaultStyle := by
  obtain ⟨g2, a2, p2, o2⟩ := sd
  simp only [StyleArgs.isEmpty, Bool.and_eq_true, Option.isNone_iff_eq_none] at h
  obtain ⟨⟨⟨-, h2⟩, h3⟩, h4⟩ := h
  subst h2; subst h3; subst h4
  rfl

/-- Claim C2 (code_bug): a call to add_text with the style argument
omitted (None, its declared default) does not succeed: the source
unconditionally evaluates style.get(text-align-group), which raises
AttributeError on None, even though TextElement itself accepts a None
style and the parameter is declared optional. -/
theorem claim_C2 :
    (add_text initETS "name" none none none).2 =
      Except.error PyError.attributeError := rfl

/-- Claim C3 (confirmed): set_text formats the raw value through the
element's pattern and stores the result as its text, leaving bounds and
every other field unchanged; a formatting failure propagates as an error
before any assignment, so the element keeps its previous text; with
pattern percent-s-items, setting the value 5 yields the text 5 items. -/
theorem claim_C3 :
    (∀ (e : TextElement) (v : PyVal) (s2 : String),
        pyFormat e.pattern v = Except.ok s2 →
          set_text e v = Except.ok { e with text := s2 }) ∧
      (∀ (e : TextElement) (v : PyVal) (err : FormatError),
        pyFormat e.pattern v = Except.error err →
          set_text e v = Except.error err) ∧
      (∀ (e : TextElement) (v : PyVal) (r : TextElement),
        set_text e v = Except.ok r →
          r.bounds = e.bounds ∧ r.pattern = e.pattern ∧ r.style = e.style ∧
            r.display = e.display) ∧
      set_text (mkTextElement "n" none (some "%s items") none) (PyVal.int 5) =
        Except.ok
          { mkTextElement "n" none (some "%s items") none with
              text := "5 items" } := by
  refine ⟨?_, ?_, ?_, ?_⟩
  · intro e v s2 h
    simp [set_text, h]
  · intro e v err h
    simp [set_text, h]
  · intro e v r h
    cases hp : pyFormat e.pattern v with
    | ok s2 =>
        rw [set_text, hp] at h
        simp only [Except.ok.injEq] at h
        subst h
        exact ⟨rfl, rfl, rfl, rfl⟩
    | error err =>
        rw [set_text, hp] at h
        cases h
  · rfl

/-- Witness for claim C3: a successful formatting at a concrete input. -/
theorem claim_C3_witness :
    set_text (mkTextElement "n" none none none) (PyVal.str "abc") =
      Except.ok { mkTextElement "n" none none none with text := "abc" } :=
  claim_C3.1 (mkTextElement "n" none none none) (PyVal.str "abc") "abc" rfl

/-- Claim C8 (confirmed): a freshly constructed TextElement has the
sentinel rectangle (0, 0, 10, 0), a style equal to the defaults with
alignment (center, top), padding (2, 2, 2, 2) and outside false,
overridden field-by-field by any supplied style options, the identity
percent-s pattern when none is given, and an always-true display
predicate when none is given. -/
theorem claim_C8 (attr : String) (sd : StyleArgs) (p : Option String)
    (w : Option Bool) :
    (mkTextElement attr (some sd) p w).bounds = ⟨0, 0, 10, 0⟩ ∧
      (mkTextElement attr none p w).bounds = ⟨0, 0, 10, 0⟩ ∧
      (mkTextElement attr (some sd) p w).style = styleUpdate defaultStyle sd ∧
      (mkTextElement attr none p w).style = defaultStyle ∧
      (mkTextElement attr (some sd) none w).pattern = "%s" ∧
      (mkTextElement attr none none w).pattern = "%s" ∧
      (∀ v, pyFormat "%s" v = Except.ok (pyStr v)) ∧
      (mkTextElement attr (some sd) p none).display = true ∧
      (mkTextElement attr none p none).display = true := by
  refine ⟨rfl, rfl, ?_, rfl, rfl, rfl, ?_, rfl, rfl⟩
  · show (if sd.isEmpty then defaultStyle else styleUpdate defaultStyle sd) = _
    by_cases h : sd.isEmpty
    · rw [if_pos h, styleUpdate_empty sd h]
    · rw [if_neg h]
  · intro v
    show Except.map String.mk (formatChars ('%' :: 's' :: []) [v]) = _
    simp only [formatChars, Except.map, Except.bind, bind, Except.pure, pure,
      List.append_nil]

/-- Claim C7 (confirmed): running update twice with the same render
context and unchanged state produces exactly the same element bounds as
running it once; the second pass recomputes every written rectangle from
the unchanged texts, styles and visibility and leaves unwritten elements
alone, so the whole state is a fixed point. -/
theorem claim_C7 (ctx : RenderContext) (s : EditableTextSupport) :
    update ctx (update ctx s) = update ctx s := by
  have key : updateStore ctx s.groups (updateStore ctx s.groups s.store) =
      updateStore ctx s.groups s.store := by
    funext j
    have hie : immutEq (updateStore ctx s.groups s.store) s.store := fun k =>
      updateStore_immut ctx s.groups s.store k
    rcases updateStore_writeDet ctx s.groups _ _ hie j with hL | ⟨ha, _⟩
    · exact hL
    · exact ha
  show EditableTextSupport.mk _ _
      (updateStore ctx s.groups (updateStore ctx s.groups s.store)) _ = _
  rw [key]
  rfl

/-- Claim C10 (confirmed): point never returns more than 10000, because
the sentinel 10000.0 is always among the minimized distances; in
particular when every visible element is farther than 10000 the result is
the capped 10000, not the true distance. -/
theorem claim_C10 (d : Rectangle → ℚ × ℚ → ℚ) (s : EditableTextSupport)
    (x y : ℚ) :
    (point d s x y).2 ≤ 10000 ∧
      ((∀ q ∈ visibleDistances d s x y, 10000 < q) →
        (point d s x y).2 = 10000) := by
  refine ⟨pymin_le_init _ _, ?_⟩
  intro h
  exact pymin_all_ge _ _ fun q hq => le_of_lt (h q hq)

/-- Evaluation of the hit-testing fixture: its only element is displayed
and sits at rectangle distance 19990 from the query point (20000, 0). -/
theorem visibleDistances_sOneText :
    visibleDistances distExample sOneText 20000 0 = [19990] := by
  norm_num [visibleDistances, sOneText, defaultElem, mkTextElement,
    distExample, axisGap]

theorem claim_C10_witness : (point distExample sOneText 20000 0).2 = 10000 := by
  refine (claim_C10 distExample sOneText 20000 0).2 ?_
  intro q hq
  rw [visibleDistances_sOneText] at hq
  rcases List.mem_singleton.mp hq with rfl
  norm_num

/-- Claim C9 (confirmed): point and draw return the state untouched;
update leaves the bounds of any non-displayed element exactly as they
were, and the grouped pass returns the store unchanged for a group with
no displayable element. -/
theorem claim_C9 :
    (∀ (d : Rectangle → ℚ × ℚ → ℚ) (s : EditableTextSupport) (x y : ℚ),
        (point d s x y).1 = s) ∧
      (∀ (hs hv hf da : Bool) (s : EditableTextSupport),
        (draw hs hv hf da s).1 = s) ∧
      (∀ (ctx : RenderContext) (s : EditableTextSupport) (i : Nat),
        (s.store i).display = false → (update ctx s).store i = s.store i) ∧
      (∀ (ctx : RenderContext) (st : Store) (gl : List Nat),
        displayable st gl = [] → align_text_group ctx st gl = st) := by
  refine ⟨fun d s x y => rfl, fun hs hv hf da s => rfl, ?_, ?_⟩
  · exact fun ctx s i h => update_nondisplay ctx s i h
  · intro ctx st gl h
    simp [align_text_group, h]

/-- Witness for claim C9: updating a state whose only element is hidden
leaves that element untouched. -/
theorem claim_C9_witness : (update ctxProbe sHidden).store 0 = sHidden.store 0 :=
  claim_C9.2.2.1 ctxProbe sHidden 0 rfl

/-- Claim C6 (amended): point returns the state unchanged and yields the
minimum of the sentinel 10000 and the displayed elements' distances: it
is 10000 with no visible element, is a lower bound of every visible
distance, never exceeds 10000, ignores non-displayed elements entirely
(restricting the state to its displayed elements gives the same result),
and equals the minimum over the visible elements whenever at least one of
them is within 10000. -/
theorem claim_C6_amended (d : Rectangle → ℚ × ℚ → ℚ)
    (s : EditableTextSupport) (x y : ℚ) :
    (point d s x y).1 = s ∧
      (visibleDistances d s x y = [] → (point d s x y).2 = 10000) ∧
      (∀ q ∈ visibleDistances d s x y, (point d s x y).2 ≤ q) ∧
      (point d s x y).2 ≤ 10000 ∧
      (point d ⟨s.texts.filter fun i => (s.store i).display, s.groups,
          s.store, s.nextId⟩ x y).2 = (point d s x y).2 ∧
      ((∃ q ∈ visibleDistances d s x y, q ≤ 10000) →
        (point d s x y).2 = pyminL (visibleDistances d s x y)) := by
  refine ⟨rfl, ?_, ?_, pymin_le_init _ _, ?_, ?_⟩
  · intro h
    show pymin 10000 (visibleDistances d s x y) = 10000
    rw [h]
    rfl
  · intro q hq
    exact pymin_le_mem _ _ _ hq
  · show pymin 10000 _ = pymin 10000 _
    have hfd : visibleDistances d
        ⟨s.texts.filter fun i => (s.store i).display, s.groups, s.store,
          s.nextId⟩ x y = visibleDistances d s x y := by
      simp [visibleDistances, List.filter_filter]
    rw [hfd]
  · rintro ⟨q, hq, hle⟩
    have hne : visibleDistances d s x y ≠ [] := fun hc => by
      rw [hc] at hq
      cases hq
    show pymin 10000 (visibleDistances d s x y) = _
    rw [pymin_eq_minL _ _ hne]
    exact min_eq_right (le_trans (pyminL_le_mem _ _ hq) hle)

/-- Witness for claim C6: on a state with no elements at all, point
returns the sentinel 10000. -/
theorem claim_C6_amended_witness : (point distExample initETS 0 0).2 = 10000 :=
  (claim_C6_amended distExample initETS 0 0).2.1 rfl

/-- Counterexample for claim C6 as stated: with one visible element whose
rectangle distance to the query point is 19990, point does not return the
minimum over the visible elements' distances (19990) but the capped
sentinel 10000. -/
theorem claim_C6_counterexample :
    (point distExample sOneText 20000 0).2 = 10000 ∧
      pyminL (visibleDistances distExample sOneText 20000 0) = 19990 ∧
      (point distExample sOneText 20000 0).2 ≠
        pyminL (visibleDistances distExample sOneText 20000 0) := by
  have hp : (point distExample sOneText 20000 0).2 = 10000 := by
    show pymin 10000 (visibleDistances distExample sOneText 20000 0) = 10000
    rw [visibleDistances_sOneText]
    show min 10000 19990 = 10000
    exact min_eq_left (by norm_num)
  have hm : pyminL (visibleDistances distExample sOneText 20000 0) = 19990 := by
    rw [visibleDistances_sOneText]
    rfl
  refine ⟨hp, hm, ?_⟩
  rw [hp, hm]
  norm_num

/-- Claim C1 (amended): in the grouped pass, for a group with at least
one displayable element the box used for stacking is the element-wise
maximum of (max measured width, summed measured height) and the floor
(15, 10), so the centering width is at least 15; but the box size handed
to the shared text-alignment function together with the first displayable
element's style is the unclamped (max width, summed height), and the
first displayable element is placed at the returned anchor position. -/
theorem claim_C1_amended (ctx : RenderContext) (s : EditableTextSupport)
    (g : String) (gs1 gs2 : List (Option String × List Nat))
    (gl post : List Nat) (i : Nat)
    (h1 : s.groups = gs1 ++ (some g, gl) :: gs2)
    (h2 : displayable s.store gl = i :: post)
    (h4 : ∀ j ∈ post, j ≠ i)
    (h5 : i ∉ (groupsLookup s.groups none).getD [])
    (h6 : ∀ gp ∈ gs1 ++ gs2, gp.1 ≠ none → i ∉ gp.2) :
    15 ≤ groupBoxWidth ctx s.store (i :: post) ∧
      groupAnchor ctx s.store (i :: post) =
        ctx.text_align
          (pymax (((i :: post).map fun j => ctx.measure (s.store j).text).map
            Prod.fst),
           pysum (((i :: post).map fun j => ctx.measure (s.store j).text).map
            Prod.snd))
          (s.store i).style.text_align (s.store i).style.text_padding
          (s.store i).style.text_outside ∧
      (update ctx s).store i =
        { s.store i with bounds :=
          ⟨(groupAnchor ctx s.store (i :: post)).1 +
             (groupBoxWidth ctx s.store (i :: post) -
               (ctx.measure (s.store i).text).1) / 2,
           (groupAnchor ctx s.store (i :: post)).2,
           (ctx.measure (s.store i).text).1,
           (ctx.measure (s.store i).text).2⟩ } := by
  refine ⟨le_max_right _ _, rfl, ?_⟩
  have h := update_group_member ctx s g gs1 gs2 gl [] post i h1
    (by rw [h2]; rfl) (by simp) h4 h5 h6
  simp only [List.nil_append, List.map_nil, pysum, List.sum_nil,
    add_zero] at h
  exact h

/-- Witness for claim C1: the probe context and the one-element group. -/
theorem claim_C1_amended_witness :
    15 ≤ groupBoxWidth ctxProbe sOneGroup.store [0] :=
  (claim_C1_amended ctxProbe sOneGroup "g" [(none, [])] [] [0] [] 0 rfl rfl
    (by simp) (by decide) (by decide)).1

/-- Counterexample for claim C1 as stated: with a measurement of (10, 8),
below the floor, and an alignment function that returns the extents it
receives, the claim predicts the anchor y of the clamped box (10), but
the first stacked element lands at y 8: the source passes the unclamped
extents to the alignment function. -/
theorem claim_C1_counterexample :
    ((update ctxProbe sOneGroup).store 0).bounds.y0 ≠
      (ctxProbe.text_align (15, 10) defaultElem.style.text_align
        defaultElem.style.text_padding defaultElem.style.text_outside).2 := by
  have h := update_group_member ctxProbe sOneGroup "g" [(none, [])] [] [0]
    [] [] 0 rfl rfl (by simp) (by simp) (by decide) (by decide)
  rw [h]
  show (groupAnchor ctxProbe sOneGroup.store ([] ++ 0 :: [])).2 +
      pysum ([] : List ℚ) ≠ _
  norm_num [groupAnchor, ctxProbe, sOneGroup, defaultElem, mkTextElement,
    pymax, pysum]

/-- Claim C4 (confirmed): after update, a named group whose three
elements a, b, c, in order, are all displayed stacks them with a 3-unit
gap: b starts at a's bottom plus 3, c at b's bottom plus 3, and a starts
at the anchored box y position. -/
theorem claim_C4 (ctx : RenderContext) (s : EditableTextSupport) (g : String)
    (gs1 gs2 : List (Option String × List Nat)) (a b c : Nat)
    (h1 : s.groups = gs1 ++ (some g, [a, b, c]) :: gs2)
    (hda : (s.store a).display = true) (hdb : (s.store b).display = true)
    (hdc : (s.store c).display = true)
    (hab : a ≠ b) (hac : a ≠ c) (hbc : b ≠ c)
    (hna : a ∉ (groupsLookup s.groups none).getD [])
    (hnb : b ∉ (groupsLookup s.groups none).getD [])
    (hnc : c ∉ (groupsLookup s.groups none).getD [])
    (h6 : ∀ gp ∈ gs1 ++ gs2, gp.1 ≠ none →
      a ∉ gp.2 ∧ b ∉ gp.2 ∧ c ∉ gp.2) :
    ((update ctx s).store b).bounds.y0 =
        ((update ctx s).store a).bounds.y0 +
          ((update ctx s).store a).bounds.height + 3 ∧
      ((update ctx s).store c).bounds.y0 =
        ((update ctx s).store b).bounds.y0 +
          ((update ctx s).store b).bounds.height + 3 ∧
      ((update ctx s).store a).bounds.y0 =
        (groupAnchor ctx s.store [a, b, c]).2 := by
  have hvis : displayable s.store [a, b, c] = [a, b, c] := by
    simp [displayable, hda, hdb, hdc]
  have hA := update_group_member ctx s g gs1 gs2 [a, b, c] [] [b, c] a h1
    (by rw [hvis]; rfl) (by simp)
    (by
      intro j hj
      rcases List.mem_cons.mp hj with rfl | hj2
      · exact fun hc => hab hc.symm
      · rcases List.mem_singleton.mp hj2 with rfl
        exact fun hc => hac hc.symm)
    hna (fun gp hgp hn => (h6 gp hgp hn).1)
  have hB := update_group_member ctx s g gs1 gs2 [a, b, c] [a] [c] b h1
    (by rw [hvis]; rfl)
    (by
      intro j hj
      rcases List.mem_singleton.mp hj with rfl
      exact hab)
    (by
      intro j hj
      rcases List.mem_singleton.mp hj with rfl
      exact fun hc => hbc hc.symm)
    hnb (fun gp hgp hn => (h6 gp hgp hn).2.1)
  have hC := update_group_member ctx s g gs1 gs2 [a, b, c] [a, b] [] c h1
    (by rw [hvis]; rfl)
    (by
      intro j hj
      rcases List.mem_cons.mp hj with rfl | hj2
      · exact hac
      · rcases List.mem_singleton.mp hj2 with rfl
        exact hbc)
    (by simp)
    hnc (fun gp hgp hn => (h6 gp hgp hn).2.2)
  simp only [List.nil_append, List.cons_append, List.map_nil, List.map_cons,
    pysum, List.sum_nil, List.sum_cons, add_zero] at hA hB hC
  rw [hA, hB, hC]
  refine ⟨?_, ?_, ?_⟩ <;>
    · show _ = _
      ring

/-- Witness for claim C4: three equal elements measured (10, 8) anchored
at (100, 200) stack at y positions 200, 211 and 222. -/
theorem claim_C4_witness :
    ((update ctxAnchor sThreeGroup).store 1).bounds.y0 =
        ((update ctxAnchor sThreeGroup).store 0).bounds.y0 +
          ((update ctxAnchor sThreeGroup).store 0).bounds.height + 3 ∧
      ((update ctxAnchor sThreeGroup).store 2).bounds.y0 =
        ((update ctxAnchor sThreeGroup).store 1).bounds.y0 +
          ((update ctxAnchor sThreeGroup).store 1).bounds.height + 3 ∧
      ((update ctxAnchor sThreeGroup).store 0).bounds.y0 =
        (groupAnchor ctxAnchor sThreeGroup.store [0, 1, 2]).2 :=
  claim_C4 ctxAnchor sThreeGroup "g" [(none, [])] [] 0 1 2 rfl rfl rfl rfl
    (by decide) (by decide) (by decide) (by decide) (by decide) (by decide)
    (by decide)

/-- Claim C5 (confirmed): after update, every displayable element of a
named group is horizontally centered in the clamped box width using its
own measured width, and its stored bounds take its own measured width and
height, not the box size. -/
theorem claim_C5 (ctx : RenderContext) (s : EditableTextSupport) (g : String)
    (gs1 gs2 : List (Option String × List Nat)) (gl pre post : List Nat)
    (i : Nat)
    (h1 : s.groups = gs1 ++ (some g, gl) :: gs2)
    (h2 : displayable s.store gl = pre ++ i :: post)
    (h3 : ∀ j ∈ pre, j ≠ i) (h4 : ∀ j ∈ post, j ≠ i)
    (h5 : i ∉ (groupsLookup s.groups none).getD [])
    (h6 : ∀ gp ∈ gs1 ++ gs2, gp.1 ≠ none → i ∉ gp.2) :
    ((update ctx s).store i).bounds.x0 =
        (groupAnchor ctx s.store (pre ++ i :: post)).1 +
          (groupBoxWidth ctx s.store (pre ++ i :: post) -
            (ctx.measure (s.store i).text).1) / 2 ∧
      ((update ctx s).store i).bounds.width =
        (ctx.measure (s.store i).text).1 ∧
      ((update ctx s).store i).bounds.height =
        (ctx.measure (s.store i).text).2 := by
  rw [update_group_member ctx s g gs1 gs2 gl pre post i h1 h2 h3 h4 h5 h6]
  exact ⟨rfl, rfl, rfl⟩

/-- Witness for claim C5: the middle element of the three-element group
fixture. -/
theorem claim_C5_witness :
    ((update ctxAnchor sThreeGroup).store 1).bounds.x0 =
        (groupAnchor ctxAnchor sThreeGroup.store ([0] ++ 1 :: [2])).1 +
          (groupBoxWidth ctxAnchor sThreeGroup.store ([0] ++ 1 :: [2]) -
            (ctxAnchor.measure (sThreeGroup.store 1).text).1) / 2 ∧
      ((update ctxAnchor sThreeGroup).store 1).bounds.width =
        (ctxAnchor.measure (sThreeGroup.store 1).text).1 ∧
      ((update ctxAnchor sThreeGroup).store 1).bounds.height =
        (ctxAnchor.measure (sThreeGroup.store 1).text).2 :=
  claim_C5 ctxAnchor sThreeGroup "g" [(none, [])] [] [0, 1, 2] [0] [2] 1
    rfl rfl (by decide) (by decide) (by decide) (by decide)

end GaphorText
